import Mathlib

/-!
Verification of the splitbill allocation engine (the client-side
`ParticipantManager` calculator) and the store adapter (the Go
`BillHandler`/`BillService` mutation endpoints), shallowly embedded over ℚ.
-/

namespace SplitBill

/-! ## Data model of the client-side calculator (billService.ts shapes) -/

/-- A receipt line item as consumed by the calculator (`BillItem` in
`billService.ts`): identifier, display name, unit price and quantity. -/
structure BillItem where
  id : Nat
  name : String
  price : ℚ
  quantity : ℤ
deriving Repr, DecidableEq

/-- A participant as consumed by the calculator (`BillParticipant`). -/
structure BillParticipant where
  id : Nat
  name : String
  shareOfCommonCosts : ℚ
deriving Repr, DecidableEq

/-- An item-to-participant assignment edge (`{itemId, participantId}`). -/
structure ItemAssignment where
  itemId : Nat
  participantId : Nat
deriving Repr, DecidableEq

/-- The bill fields the calculator reads (`{ tax_amount, tip_amount }`). -/
structure BillTaxTip where
  tax_amount : ℚ
  tip_amount : ℚ
deriving Repr, DecidableEq

/-- An item's line total, `item.price * item.quantity` as written inline
throughout `ParticipantManager`. -/
def itemLineTotal (item : BillItem) : ℚ :=
  item.price * (item.quantity : ℚ)

/-- The `isItemAssignedToParticipant` helper of `ParticipantManager`:
whether some assignment edge links the given item and participant. -/
def isItemAssignedToParticipant (assigns : List ItemAssignment)
    (itemId participantId : Nat) : Bool :=
  assigns.any fun a => a.itemId == itemId && a.participantId == participantId

/-- The `participantsSharingThisItem` count of `getParticipantTotal`: the
number of assignment edges whose `itemId` matches the given item. -/
def sharerCount (assigns : List ItemAssignment) (itemId : Nat) : Nat :=
  (assigns.filter fun a => a.itemId == itemId).length

/-- The body of the `items.forEach` loop of `getParticipantTotal`: an item
contributes its line total divided by its sharer count when the participant
is assigned to it (and the count is positive), and `0` otherwise. -/
def itemContribution (assigns : List ItemAssignment) (item : BillItem)
    (participantId : Nat) : ℚ :=
  if isItemAssignedToParticipant assigns item.id participantId then
    if 0 < sharerCount assigns item.id then
      itemLineTotal item / (sharerCount assigns item.id : ℚ)
    else 0
  else 0

/-- The `getParticipantTotal` function of `ParticipantManager`: the sum over
all items of their contribution to this participant. -/
def getParticipantTotal (items : List BillItem) (assigns : List ItemAssignment)
    (participantId : Nat) : ℚ :=
  (items.map fun item => itemContribution assigns item participantId).sum

/-- The `getTotalAssigned` function: the sum of all participants' item
totals. -/
def getTotalAssigned (items : List BillItem) (participants : List BillParticipant)
    (assigns : List ItemAssignment) : ℚ :=
  (participants.map fun p => getParticipantTotal items assigns p.id).sum

/-- The `getTotalItems` function: the sum of all items' line totals. -/
def getTotalItems (items : List BillItem) : ℚ :=
  (items.map fun item => item.price * (item.quantity : ℚ)).sum

/-- The `getParticipantTaxTipShare` function: zero when the bill is absent,
when tax plus tip is zero, or when the total assigned amount is zero;
otherwise tax plus tip scaled by the participant's fraction of the total
assigned item cost. -/
def getParticipantTaxTipShare (bill : Option BillTaxTip) (items : List BillItem)
    (participants : List BillParticipant) (assigns : List ItemAssignment)
    (participantId : Nat) : ℚ :=
  match bill with
  | none => 0
  | some b =>
    let totalTaxTip := b.tax_amount + b.tip_amount
    if totalTaxTip = 0 then 0
    else
      let participantItemTotal := getParticipantTotal items assigns participantId
      let totalAssignedItems := getTotalAssigned items participants assigns
      if totalAssignedItems = 0 then 0
      else totalTaxTip * (participantItemTotal / totalAssignedItems)

/-- The `getParticipantTotalWithTaxTip` function: item total plus tax/tip
share. -/
def getParticipantTotalWithTaxTip (bill : Option BillTaxTip) (items : List BillItem)
    (participants : List BillParticipant) (assigns : List ItemAssignment)
    (participantId : Nat) : ℚ :=
  getParticipantTotal items assigns participantId
    + getParticipantTaxTipShare bill items participants assigns participantId

/-- The `getTotalBillWithTaxTip` function: items total plus the bill's tax
and tip amounts (each read as `0` when the bill is absent). -/
def getTotalBillWithTaxTip (bill : Option BillTaxTip) (items : List BillItem) : ℚ :=
  getTotalItems items
    + (match bill with | some b => b.tax_amount | none => 0)
    + (match bill with | some b => b.tip_amount | none => 0)

/-- The `getUnassignedItemsTotal` function: items total minus assigned
total. -/
def getUnassignedItemsTotal (items : List BillItem)
    (participants : List BillParticipant) (assigns : List ItemAssignment) : ℚ :=
  getTotalItems items - getTotalAssigned items participants assigns

/-! ## Data model of the Go API store (models/bills.go) -/

/-- An items-table row (Go `models.Items`); bill ids are represented as
naturals standing for opaque UUIDs. -/
structure StoreItem where
  id : Nat
  billId : Nat
  name : String
  price : ℚ
  quantity : ℤ
deriving Repr, DecidableEq

/-- A participants-table row (Go `models.Participants`). -/
structure StoreParticipant where
  id : Nat
  billId : Nat
  name : String
  paymentStatus : String
  shareOfCommonCosts : ℚ
deriving Repr, DecidableEq

/-- An item_assignments-table row (Go `models.ItemAssignments`), keyed by
the composite primary key (item_id, participant_id). -/
structure StoreAssignment where
  itemId : Nat
  participantId : Nat
deriving Repr, DecidableEq

/-- The rows of the relational store the handlers read and write. -/
structure Store where
  items : List StoreItem
  participants : List StoreParticipant
  assignments : List StoreAssignment
deriving Repr, DecidableEq

/-- The error classes the handlers surface (HTTP 404, 409, 400, 500). -/
inductive ApiError where
  | notFound (msg : String)
  | conflict (msg : String)
  | badRequest (msg : String)
  | internal (msg : String)
deriving Repr, DecidableEq

/-- The `AssignItemToParticipant` handler after request parsing: look up the
item by (id, bill), then the participant by (id, bill), then reject a
pre-existing (item, participant) pair with a conflict, and otherwise insert
the new edge. The returned store is the state after the call. -/
def AssignItemToParticipant (s : Store) (billId itemId participantId : Nat) :
    Store × Except ApiError StoreAssignment :=
  match s.items.find? fun i => i.id == itemId && i.billId == billId with
  | none => (s, .error (.notFound "Item not found in this bill"))
  | some _ =>
    match s.participants.find? fun p => p.id == participantId && p.billId == billId with
    | none => (s, .error (.notFound "Participant not found in this bill"))
    | some _ =>
      match s.assignments.find? fun a =>
          a.itemId == itemId && a.participantId == participantId with
      | some _ => (s, .error (.conflict "Item is already assigned to this participant"))
      | none =>
        let a : StoreAssignment := { itemId := itemId, participantId := participantId }
        ({ s with assignments := s.assignments ++ [a] }, .ok a)

/-- Fault schedule for the two database deletes issued by the
`DeleteParticipant` handler. The handler runs them as two independent
statements with no surrounding transaction, so each can fail on its own. -/
structure DeleteFaults where
  failDeleteAssignments : Bool
  failDeleteParticipant : Bool
deriving Repr, DecidableEq

/-- The `DeleteParticipant` handler: look up the participant by (id, bill),
delete all assignment rows with that participant id, then delete the
participant row by id. Each delete is a separate database statement; a
fault in the second one leaves the first one committed. -/
def DeleteParticipant (s : Store) (billId participantId : Nat)
    (f : DeleteFaults) : Store × Except ApiError Unit :=
  match s.participants.find? fun p => p.id == participantId && p.billId == billId with
  | none => (s, .error (.notFound "Participant not found in this bill"))
  | some _ =>
    if f.failDeleteAssignments then
      (s, .error (.internal "Failed to delete item assignments"))
    else
      let s1 := { s with
        assignments := s.assignments.filter fun a => !(a.participantId == participantId) }
      if f.failDeleteParticipant then
        (s1, .error (.internal "Failed to delete participant"))
      else
        ({ s1 with participants := s1.participants.filter fun p => !(p.id == participantId) },
          .ok ())

/-- The optional-field body of the `UpdateItem` handler request. -/
structure UpdateItemRequest where
  name : Option String
  price : Option ℚ
  quantity : Option ℤ
deriving Repr, DecidableEq

/-- The updates map built by `UpdateItem` applied to one row: each provided
field overwrites the stored value, each omitted field keeps it. -/
def applyItemUpdates (req : UpdateItemRequest) (i : StoreItem) : StoreItem :=
  { i with
    name := req.name.getD i.name
    price := req.price.getD i.price
    quantity := req.quantity.getD i.quantity }

/-- The `UpdateItem` handler: reject only a request providing no fields,
apply the provided fields to the row with the given id, then re-read that
row (failing when it does not exist). There is no validation of the
provided name, price or quantity values. -/
def UpdateItem (s : Store) (itemId : Nat) (req : UpdateItemRequest) :
    Store × Except ApiError StoreItem :=
  if req.name.isNone && req.price.isNone && req.quantity.isNone then
    (s, .error (.badRequest "No fields to update"))
  else
    let items1 := s.items.map fun i => if i.id == itemId then applyItemUpdates req i else i
    let s1 := { s with items := items1 }
    match items1.find? fun i => i.id == itemId with
    | none => (s1, .error (.internal "Failed to fetch updated item"))
    | some i => (s1, .ok i)

/-- The sites at which the Go code stores a bill status: bill creation and
every `UpdateBillStatus` call. -/
inductive StatusWrite where
  /-- `CreateBill` in bill_service.go (`Status: "active"`). -/
  | createBill
  /-- `UploadBillImage` handler before triggering the workflow. -/
  | uploadStart
  /-- `UploadBillImage` handler reverting after a non-workflow failure. -/
  | uploadRevert
  /-- `triggerN8nWorkflowWithImage` failure paths in bill_service.go. -/
  | workflowFailed
  /-- `ProcessExtractedData` handler on a processing failure. -/
  | extractionFailed
  /-- `ProcessExtractedData` handler after successful processing. -/
  | extractionCompleted
deriving Repr, DecidableEq

/-- The literal status string each write site stores. -/
def statusWritten : StatusWrite → String
  | .createBill => "active"
  | .uploadStart => "processing"
  | .uploadRevert => "active"
  | .workflowFailed => "failed"
  | .extractionFailed => "failed"
  | .extractionCompleted => "completed"

/-- The `participant_shares` Go map of `GetBillSummary`, built by assigning
`sharePerPerson + participant.ShareOfCommonCosts` under each participant's
name in iteration order (a later duplicate name overwrites an earlier one). -/
def participantSharesMap (participants : List StoreParticipant)
    (sharePerPerson : ℚ) : String → Option ℚ :=
  participants.foldl
    (fun m p => fun k =>
      if k = p.name then some (sharePerPerson + p.shareOfCommonCosts) else m k)
    (fun _ => none)

/-- The `models.BillSummary` payload (participant shares as a finite map
from names). -/
structure BillSummary where
  totalItems : ℚ
  taxAmount : ℚ
  tipAmount : ℚ
  totalBill : ℚ
  participantShares : String → Option ℚ

/-- The totalItems loop of `GetBillSummary`: sum of price times quantity
over the bill's items. -/
def storeItemsTotal (items : List StoreItem) : ℚ :=
  (items.map fun i => i.price * (i.quantity : ℚ)).sum

/-- The `GetBillSummary` service method on a loaded bill: total items, tax,
tip, their sum as the bill total, and an even per-head split of that sum
(plus each participant's share_of_common_costs) when at least one
participant exists; no assignment data is consulted. -/
def GetBillSummary (items : List StoreItem) (participants : List StoreParticipant)
    (tax tip : ℚ) : BillSummary :=
  let totalItems := storeItemsTotal items
  let shares :=
    if 0 < participants.length then
      participantSharesMap participants
        ((totalItems + tax + tip) / (participants.length : ℚ))
    else fun _ => none
  { totalItems := totalItems
    taxAmount := tax
    tipAmount := tip
    totalBill := totalItems + tax + tip
    participantShares := shares }

end SplitBill

namespace SplitBill

/-! ## Helper lemmas on list sums over ℚ -/

theorem listSum_map_zero {α : Type} (l : List α) :
    (l.map fun _ => (0 : ℚ)).sum = 0 := by
  induction l with
  | nil => simp
  | cons a t ih => simp [ih]

theorem listSum_map_add {α : Type} (l : List α) (f g : α → ℚ) :
    (l.map fun a => f a + g a).sum = (l.map f).sum + (l.map g).sum := by
  induction l with
  | nil => simp
  | cons a t ih => simp [ih]; ring

theorem listSum_map_mul_left {α : Type} (l : List α) (c : ℚ) (f : α → ℚ) :
    (l.map fun a => c * f a).sum = c * (l.map f).sum := by
  induction l with
  | nil => simp
  | cons a t ih => simp [ih]; ring

theorem listSum_map_mul_right {α : Type} (l : List α) (c : ℚ) (f : α → ℚ) :
    (l.map fun a => f a * c).sum = (l.map f).sum * c := by
  induction l with
  | nil => simp
  | cons a t ih => simp [ih]; ring

/-! ## Counting helpers relating sharer counts to participant lists -/

/-- A participant is assigned to an item exactly when their id appears among
the participant ids of the assignment edges for that item. -/
theorem assigned_iff_mem (assigns : List ItemAssignment) (itemId pid : Nat) :
    isItemAssignedToParticipant assigns itemId pid = true
      ↔ pid ∈ (assigns.filter fun a => a.itemId == itemId).map
          (fun a => a.participantId) := by
  simp only [isItemAssignedToParticipant, List.any_eq_true, List.mem_map,
    List.mem_filter, Bool.and_eq_true, beq_iff_eq]
  constructor
  · rintro ⟨a, ha, h1, h2⟩
    exact ⟨a, ⟨ha, h1⟩, h2⟩
  · rintro ⟨a, ⟨ha, h1⟩, h2⟩
    exact ⟨a, ha, h1, h2⟩

/-- Boolean form of `assigned_iff_mem`. -/
theorem assigned_eq_decide_mem (assigns : List ItemAssignment) (itemId pid : Nat) :
    isItemAssignedToParticipant assigns itemId pid
      = decide (pid ∈ (assigns.filter fun a => a.itemId == itemId).map
          (fun a => a.participantId)) := by
  by_cases h : pid ∈ (assigns.filter fun a => a.itemId == itemId).map
      (fun a => a.participantId)
  · rw [(assigned_iff_mem assigns itemId pid).mpr h, decide_eq_true h]
  · rw [decide_eq_false h]
    cases hb : isItemAssignedToParticipant assigns itemId pid with
    | false => rfl
    | true => exact absurd ((assigned_iff_mem assigns itemId pid).mp hb) h

/-- Counting a nodup list of keys inside a nodup list: filtering a
duplicate-free list by membership in a duplicate-free sublist of it selects
exactly as many elements as the sublist has. -/
theorem length_filter_mem_nat :
    ∀ (ids pids : List Nat), ids.Nodup → pids.Nodup →
      (∀ x ∈ pids, x ∈ ids) →
      (ids.filter fun x => decide (x ∈ pids)).length = pids.length := by
  intro ids
  induction ids with
  | nil =>
    intro pids _ _ hsub
    have : pids = [] := by
      cases pids with
      | nil => rfl
      | cons x t => exact absurd (hsub x (List.mem_cons_self x t)) (by simp)
    simp [this]
  | cons i t ih =>
    intro pids hids hpids hsub
    have hit : i ∉ t := (List.nodup_cons.mp hids).1
    have ht : t.Nodup := (List.nodup_cons.mp hids).2
    by_cases hi : i ∈ pids
    · have hfe : t.filter (fun x => decide (x ∈ pids))
          = t.filter fun x => decide (x ∈ pids.erase i) := by
        apply List.filter_congr
        intro x hx
        have hxi : x ≠ i := fun h => hit (h ▸ hx)
        simp [List.mem_erase_of_ne hxi]
      have hlen : (t.filter fun x => decide (x ∈ pids.erase i)).length
          = (pids.erase i).length := by
        apply ih (pids.erase i) ht (hpids.erase i)
        intro x hx
        have hx' := (hpids.mem_erase_iff.mp hx)
        rcases List.mem_cons.mp (hsub x hx'.2) with h | h
        · exact absurd h hx'.1
        · exact h
      have : (List.filter (fun x => decide (x ∈ pids)) (i :: t)).length
          = (t.filter fun x => decide (x ∈ pids)).length + 1 := by
        simp [List.filter_cons, hi]
      rw [this, hfe, hlen, List.length_erase_of_mem hi,
        Nat.sub_add_cancel (List.length_pos.mpr (by rintro rfl; exact List.not_mem_nil i hi))]
    · have : (List.filter (fun x => decide (x ∈ pids)) (i :: t))
          = t.filter fun x => decide (x ∈ pids) := by
        simp [List.filter_cons, hi]
      rw [this]
      apply ih pids ht hpids
      intro x hx
      rcases List.mem_cons.mp (hsub x hx) with h | h
      · exact absurd (h ▸ hx) hi
      · exact h

/-- Under the no-duplicate-pairs invariant, the participant ids on the
assignment edges of one item are pairwise distinct. -/
theorem filteredPids_nodup (assigns : List ItemAssignment) (itemId : Nat)
    (hpair : assigns.Pairwise fun a b =>
      a.itemId ≠ b.itemId ∨ a.participantId ≠ b.participantId) :
    ((assigns.filter fun a => a.itemId == itemId).map
        fun a => a.participantId).Nodup := by
  have hE := hpair.filter (fun a => a.itemId == itemId)
  have hstep : (assigns.filter fun a => a.itemId == itemId).Pairwise
      fun a b => a.participantId ≠ b.participantId := by
    refine hE.imp_of_mem ?_
    intro a b ha hb hR
    have ha' : a.itemId = itemId := by
      have := (List.mem_filter.mp ha).2
      simpa using this
    have hb' : b.itemId = itemId := by
      have := (List.mem_filter.mp hb).2
      simpa using this
    rcases hR with h | h
    · exact absurd (ha'.trans hb'.symm) h
    · exact h
  exact List.pairwise_map.mpr hstep

/-- Under the store invariants (no duplicate pairs, distinct participant
ids, edges referencing existing participants), the number of participants
assigned to an item equals its sharer count. -/
theorem sharers_length_eq (participants : List BillParticipant)
    (assigns : List ItemAssignment) (itemId : Nat)
    (hpair : assigns.Pairwise fun a b =>
      a.itemId ≠ b.itemId ∨ a.participantId ≠ b.participantId)
    (hpid : (participants.map fun p => p.id).Nodup)
    (href : ∀ a ∈ assigns, ∃ p ∈ participants, p.id = a.participantId) :
    (participants.filter fun p =>
        isItemAssignedToParticipant assigns itemId p.id).length
      = sharerCount assigns itemId := by
  set pids := (assigns.filter fun a => a.itemId == itemId).map
    (fun a => a.participantId) with hpids_def
  have hfe : (participants.filter fun p =>
      isItemAssignedToParticipant assigns itemId p.id)
      = participants.filter fun p => decide (p.id ∈ pids) := by
    apply List.filter_congr
    intro p _
    exact assigned_eq_decide_mem assigns itemId p.id
  have hmapfilter :
      ((participants.map fun p => p.id).filter fun x => decide (x ∈ pids))
        = (participants.filter fun p => decide (p.id ∈ pids)).map fun p => p.id :=
    List.filter_map (fun p => p.id) participants
  have hlen : (participants.filter fun p => decide (p.id ∈ pids)).length
      = ((participants.map fun p => p.id).filter fun x => decide (x ∈ pids)).length := by
    rw [hmapfilter, List.length_map]
  have hcount : ((participants.map fun p => p.id).filter
      fun x => decide (x ∈ pids)).length = pids.length := by
    apply length_filter_mem_nat _ _ hpid (filteredPids_nodup assigns itemId hpair)
    intro x hx
    rcases List.mem_map.mp hx with ⟨a, haf, hax⟩
    rcases href a (List.mem_filter.mp haf).1 with ⟨p, hp, hpid_eq⟩
    exact List.mem_map.mpr ⟨p, hp, hpid_eq.trans hax⟩
  rw [hfe, hlen, hcount, hpids_def, List.length_map]
  rfl

/-! ## More list-sum helpers -/

theorem listSum_map_sub {α : Type} (l : List α) (f g : α → ℚ) :
    (l.map fun a => f a - g a).sum = (l.map f).sum - (l.map g).sum := by
  induction l with
  | nil => simp
  | cons a t ih => simp [ih]; ring

theorem listSum_comm {α β : Type} (l₁ : List α) (l₂ : List β) (f : α → β → ℚ) :
    (l₁.map fun a => (l₂.map fun b => f a b).sum).sum
      = (l₂.map fun b => (l₁.map fun a => f a b).sum).sum := by
  induction l₁ with
  | nil => simp [listSum_map_zero]
  | cons a t ih =>
    rw [List.map_cons, List.sum_cons, ih]
    have hsplit : (l₂.map fun b => ((a :: t).map fun x => f x b).sum)
        = l₂.map fun b => f a b + (t.map fun x => f x b).sum := by
      apply List.map_congr_left
      intro b _
      rw [List.map_cons, List.sum_cons]
    rw [hsplit, listSum_map_add]

theorem listSum_map_ite {α : Type} (l : List α) (q : α → Bool) (c : ℚ) :
    (l.map fun a => if q a then c else 0).sum = ((l.filter q).length : ℚ) * c := by
  induction l with
  | nil => simp
  | cons a t ih =>
    by_cases h : q a
    · simp only [List.map_cons, List.sum_cons, if_pos h, List.filter_cons,
        h, if_pos, ih, List.length_cons]
      push_cast
      ring
    · simp only [List.map_cons, List.sum_cons, if_neg h, List.filter_cons, ih]
      simp [h]

/-- The sum over all participants of one item's contributions: the number of
assigned participants times the per-sharer value. -/
theorem participants_sum_per_item (participants : List BillParticipant)
    (assigns : List ItemAssignment) (item : BillItem) :
    (participants.map fun p => itemContribution assigns item p.id).sum
      = ((participants.filter fun p =>
            isItemAssignedToParticipant assigns item.id p.id).length : ℚ)
        * (if 0 < sharerCount assigns item.id
            then itemLineTotal item / (sharerCount assigns item.id : ℚ) else 0) := by
  rw [← listSum_map_ite]
  rfl

/-- Under the store invariants, the total assigned amount decomposes as the
sum of the line totals of the items that have at least one sharer. -/
theorem totalAssigned_eq_per_item (items : List BillItem)
    (participants : List BillParticipant) (assigns : List ItemAssignment)
    (hpair : assigns.Pairwise fun a b =>
      a.itemId ≠ b.itemId ∨ a.participantId ≠ b.participantId)
    (hpid : (participants.map fun p => p.id).Nodup)
    (href : ∀ a ∈ assigns, ∃ p ∈ participants, p.id = a.participantId) :
    getTotalAssigned items participants assigns
      = (items.map fun item => if 0 < sharerCount assigns item.id
          then itemLineTotal item else 0).sum := by
  unfold getTotalAssigned getParticipantTotal
  rw [listSum_comm]
  refine congrArg List.sum (List.map_congr_left ?_)
  intro item _
  rw [participants_sum_per_item participants assigns item,
    sharers_length_eq participants assigns item.id hpair hpid href]
  by_cases hN : 0 < sharerCount assigns item.id
  · have hne : (sharerCount assigns item.id : ℚ) ≠ 0 := by
      exact_mod_cast Nat.pos_iff_ne_zero.mp hN
    rw [if_pos hN, if_pos hN, mul_comm, div_mul_cancel₀ _ hne]
  · rw [if_neg hN, if_neg hN, mul_zero]

/-! ## C2: exact even split of each assigned item among its sharers -/

/-- C2. Under the store invariants (no duplicate assignment pairs, distinct
participant ids, every edge referencing an existing participant), an item
with a positive sharer count N has exactly N sharers among the
participants, each sharer's contribution from the item is its line total
divided by N, and those N contributions sum exactly to the line total. -/
theorem item_split_exact (participants : List BillParticipant)
    (assigns : List ItemAssignment) (item : BillItem)
    (hpair : assigns.Pairwise fun a b =>
      a.itemId ≠ b.itemId ∨ a.participantId ≠ b.participantId)
    (hpid : (participants.map fun p => p.id).Nodup)
    (href : ∀ a ∈ assigns, ∃ p ∈ participants, p.id = a.participantId)
    (hN : 0 < sharerCount assigns item.id) :
    (participants.filter fun p =>
        isItemAssignedToParticipant assigns item.id p.id).length
      = sharerCount assigns item.id ∧
    (∀ p ∈ participants.filter fun p =>
        isItemAssignedToParticipant assigns item.id p.id,
      itemContribution assigns item p.id
        = itemLineTotal item / (sharerCount assigns item.id : ℚ)) ∧
    ((participants.filter fun p =>
        isItemAssignedToParticipant assigns item.id p.id).map fun p =>
          itemContribution assigns item p.id).sum = itemLineTotal item := by
  have hlen := sharers_length_eq participants assigns item.id hpair hpid href
  have hcontrib : ∀ p ∈ participants.filter fun p =>
      isItemAssignedToParticipant assigns item.id p.id,
      itemContribution assigns item p.id
        = itemLineTotal item / (sharerCount assigns item.id : ℚ) := by
    intro p hp
    have hass := (List.mem_filter.mp hp).2
    simp [itemContribution, hass, hN]
  refine ⟨hlen, hcontrib, ?_⟩
  rw [List.map_congr_left hcontrib, List.map_const', List.sum_replicate, hlen,
    nsmul_eq_mul]
  have hne : (sharerCount assigns item.id : ℚ) ≠ 0 := by
    exact_mod_cast Nat.pos_iff_ne_zero.mp hN
  rw [mul_comm, div_mul_cancel₀ _ hne]

/-- Witness for C2 at Scenario A: one 30.00 item shared by two
participants; the two 15.00 shares sum back to 30.00. -/
theorem item_split_exact_witness :
    ((([⟨1, "P1", 0⟩, ⟨2, "P2", 0⟩] : List BillParticipant).filter fun p =>
        isItemAssignedToParticipant [⟨1, 1⟩, ⟨1, 2⟩] 1 p.id).map fun p =>
          itemContribution [⟨1, 1⟩, ⟨1, 2⟩] ⟨1, "pizza", 30, 1⟩ p.id).sum
      = itemLineTotal ⟨1, "pizza", 30, 1⟩ :=
  (item_split_exact [⟨1, "P1", 0⟩, ⟨2, "P2", 0⟩] [⟨1, 1⟩, ⟨1, 2⟩]
    ⟨1, "pizza", 30, 1⟩ (by decide) (by decide) (by decide) (by decide)).2.2

/-! ## C4: conservation and bounds for the assigned total -/

/-- C4 counterexample: with a single zero-priced item (price 0, quantity 1,
both within the claim's non-negativity bounds), no participants and no
assignments, the total assigned equals the bill items total (both are 0)
although the item has no sharer, so the claimed equivalence fails. -/
theorem totalAssigned_eq_iff_counterexample :
    ¬ (getTotalAssigned [⟨1, "water", 0, 1⟩] [] []
          = getTotalItems [⟨1, "water", 0, 1⟩]
        ↔ ∀ i ∈ ([⟨1, "water", 0, 1⟩] : List BillItem),
            0 < sharerCount [] i.id) := by
  intro h
  have h0 : getTotalAssigned [⟨1, "water", 0, 1⟩] [] []
      = getTotalItems [⟨1, "water", 0, 1⟩] := by
    norm_num [getTotalAssigned, getTotalItems]
  have hforall := h.mp h0 ⟨1, "water", 0, 1⟩ (by simp)
  simp [sharerCount] at hforall

/-- C4 (amended). Under the store invariants and the claim's bounds
(non-negative prices, quantities at least 1): the participants' item totals
sum to the total assigned; the total assigned never exceeds the bill items
total; the unassigned total is their difference; if every item has at least
one sharer the two totals are equal; and conversely, equality forces every
item with a positive line total to have at least one sharer (a zero-priced
item may stay unassigned without breaking equality). -/
theorem totalAssigned_invariants (items : List BillItem)
    (participants : List BillParticipant) (assigns : List ItemAssignment)
    (hpair : assigns.Pairwise fun a b =>
      a.itemId ≠ b.itemId ∨ a.participantId ≠ b.participantId)
    (hpid : (participants.map fun p => p.id).Nodup)
    (href : ∀ a ∈ assigns, ∃ p ∈ participants, p.id = a.participantId)
    (hprice : ∀ i ∈ items, 0 ≤ i.price)
    (hqty : ∀ i ∈ items, 1 ≤ i.quantity) :
    ((participants.map fun p => getParticipantTotal items assigns p.id).sum
        = getTotalAssigned items participants assigns) ∧
    getTotalAssigned items participants assigns ≤ getTotalItems items ∧
    (getUnassignedItemsTotal items participants assigns
        = getTotalItems items - getTotalAssigned items participants assigns) ∧
    ((∀ i ∈ items, 0 < sharerCount assigns i.id) →
      getTotalAssigned items participants assigns = getTotalItems items) ∧
    (getTotalAssigned items participants assigns = getTotalItems items →
      ∀ i ∈ items, 0 < itemLineTotal i → 0 < sharerCount assigns i.id) := by
  have hline : ∀ i ∈ items, 0 ≤ itemLineTotal i := by
    intro i hi
    have h1 : (0 : ℚ) ≤ i.price := hprice i hi
    have h2 : (1 : ℚ) ≤ (i.quantity : ℚ) := by exact_mod_cast hqty i hi
    exact mul_nonneg h1 (le_trans zero_le_one h2)
  have hdecomp := totalAssigned_eq_per_item items participants assigns hpair hpid href
  refine ⟨rfl, ?_, rfl, ?_, ?_⟩
  · rw [hdecomp]
    apply List.sum_le_sum
    intro i hi
    by_cases hN : 0 < sharerCount assigns i.id
    · rw [if_pos hN]
      exact le_of_eq rfl
    · rw [if_neg hN]
      exact hline i hi
  · intro hall
    rw [hdecomp]
    refine congrArg List.sum (List.map_congr_left ?_)
    intro i hi
    rw [if_pos (hall i hi)]
    rfl
  · intro heq i hi hpos
    by_contra hN
    have hzero : ((items.map fun i => itemLineTotal i
        - if 0 < sharerCount assigns i.id then itemLineTotal i else 0)).sum = 0 := by
      rw [listSum_map_sub, ← hdecomp, heq]
      show getTotalItems items - getTotalItems items = 0
      exact sub_self _
    have hnonneg : ∀ x ∈ items.map fun i => itemLineTotal i
        - if 0 < sharerCount assigns i.id then itemLineTotal i else 0, 0 ≤ x := by
      intro x hx
      rcases List.mem_map.mp hx with ⟨j, hj, rfl⟩
      by_cases hNj : 0 < sharerCount assigns j.id
      · rw [if_pos hNj, sub_self]
      · rw [if_neg hNj, sub_zero]
        exact hline j hj
    have hterm := List.all_zero_of_le_zero_le_of_sum_eq_zero hnonneg hzero
      (List.mem_map_of_mem _ hi)
    rw [if_neg hN, sub_zero] at hterm
    exact absurd hterm (ne_of_gt hpos)

/-- Witness for C4 (amended) at Scenario C: item 1 (12.00) assigned to the
only participant, item 2 (8.00) unassigned; the assigned total 12 is below
the items total 20. -/
theorem totalAssigned_invariants_witness :
    getTotalAssigned [⟨1, "item1", 12, 1⟩, ⟨2, "item2", 8, 1⟩]
        [⟨1, "P1", 0⟩] [⟨1, 1⟩]
      ≤ getTotalItems [⟨1, "item1", 12, 1⟩, ⟨2, "item2", 8, 1⟩] :=
  (totalAssigned_invariants [⟨1, "item1", 12, 1⟩, ⟨2, "item2", 8, 1⟩]
    [⟨1, "P1", 0⟩] [⟨1, 1⟩] (by decide) (by decide) (by decide)
    (by intro i hi; fin_cases hi <;> norm_num)
    (by intro i hi; fin_cases hi <;> norm_num)).2.1

/-- C1. For every snapshot and participant: when the total assigned item
cost is positive, the tax/tip share equals (tax + tip) times the
participant's fraction of the total assigned cost; when it is zero, the
share is zero (the division is never reached). -/
theorem taxTipShare_proportional (b : BillTaxTip) (items : List BillItem)
    (participants : List BillParticipant) (assigns : List ItemAssignment)
    (participantId : Nat) :
    (0 < getTotalAssigned items participants assigns →
      getParticipantTaxTipShare (some b) items participants assigns participantId
        = (b.tax_amount + b.tip_amount)
          * (getParticipantTotal items assigns participantId
              / getTotalAssigned items participants assigns)) ∧
    (getTotalAssigned items participants assigns = 0 →
      getParticipantTaxTipShare (some b) items participants assigns participantId = 0) := by
  constructor
  · intro hpos
    unfold getParticipantTaxTipShare
    by_cases htt : b.tax_amount + b.tip_amount = 0
    · simp [htt]
    · simp [htt, ne_of_gt hpos]
  · intro hzero
    unfold getParticipantTaxTipShare
    by_cases htt : b.tax_amount + b.tip_amount = 0
    · simp [htt]
    · simp [htt, hzero]

/-- Witness for C1 at Scenario C: one 12.00 item assigned to participant 1,
tax 2 and tip 0; the share evaluates to 5 * (12 / 12) form, here 2. -/
theorem taxTipShare_proportional_witness :
    getParticipantTaxTipShare (some ⟨2, 0⟩)
        [⟨1, "item1", 12, 1⟩, ⟨2, "item2", 8, 1⟩]
        [⟨1, "P1", 0⟩] [⟨1, 1⟩] 1 = 2 := by
  have h := (taxTipShare_proportional ⟨2, 0⟩
    [⟨1, "item1", 12, 1⟩, ⟨2, "item2", 8, 1⟩] [⟨1, "P1", 0⟩] [⟨1, 1⟩] 1).1
    (by norm_num [getTotalAssigned, getParticipantTotal, itemContribution,
      isItemAssignedToParticipant, sharerCount, itemLineTotal])
  rw [h]
  norm_num [getTotalAssigned, getParticipantTotal, itemContribution,
    isItemAssignedToParticipant, sharerCount, itemLineTotal]

/-! ## C3: allocated tax/tip shares sum to the whole tax plus tip -/

/-- C3. When the total assigned item cost is positive, the participants'
tax/tip shares sum exactly to tax plus tip. -/
theorem taxTipShare_sum_eq_totalTaxTip (b : BillTaxTip) (items : List BillItem)
    (participants : List BillParticipant) (assigns : List ItemAssignment)
    (hpos : 0 < getTotalAssigned items participants assigns) :
    (participants.map fun p =>
        getParticipantTaxTipShare (some b) items participants assigns p.id).sum
      = b.tax_amount + b.tip_amount := by
  by_cases htt : b.tax_amount + b.tip_amount = 0
  · have hmap : (participants.map fun p =>
        getParticipantTaxTipShare (some b) items participants assigns p.id)
        = participants.map fun _ => (0 : ℚ) := by
      apply List.map_congr_left
      intro p _
      simp [getParticipantTaxTipShare, htt]
    rw [hmap, listSum_map_zero, htt]
  · have hTA : getTotalAssigned items participants assigns ≠ 0 := ne_of_gt hpos
    have hmap : (participants.map fun p =>
        getParticipantTaxTipShare (some b) items participants assigns p.id)
        = participants.map fun p => (b.tax_amount + b.tip_amount)
            * (getParticipantTotal items assigns p.id
                / getTotalAssigned items participants assigns) := by
      apply List.map_congr_left
      intro p _
      simp [getParticipantTaxTipShare, htt, hTA]
    rw [hmap, listSum_map_mul_left]
    have hdiv : (participants.map fun p => getParticipantTotal items assigns p.id
        / getTotalAssigned items participants assigns).sum
        = getTotalAssigned items participants assigns
          / getTotalAssigned items participants assigns := by
      simp only [div_eq_mul_inv]
      rw [listSum_map_mul_right]
      rfl
    rw [hdiv, div_self hTA, mul_one]

/-- Witness for C3 at Scenario C: tax 2, tip 0, a single participant holding
all of the assigned total; the shares sum to 2 + 0. -/
theorem taxTipShare_sum_eq_totalTaxTip_witness :
    (([⟨1, "P1", 0⟩] : List BillParticipant).map fun p =>
        getParticipantTaxTipShare (some ⟨2, 0⟩)
          [⟨1, "item1", 12, 1⟩, ⟨2, "item2", 8, 1⟩]
          [⟨1, "P1", 0⟩] [⟨1, 1⟩] p.id).sum = (2 : ℚ) + 0 :=
  taxTipShare_sum_eq_totalTaxTip ⟨2, 0⟩
    [⟨1, "item1", 12, 1⟩, ⟨2, "item2", 8, 1⟩] [⟨1, "P1", 0⟩] [⟨1, 1⟩]
    (by norm_num [getTotalAssigned, getParticipantTotal, itemContribution,
      isItemAssignedToParticipant, sharerCount, itemLineTotal])

/-! ## C9: bill total is items total plus tax plus tip, always -/

/-- C9. The bill total equals the items total plus tax plus tip for every
snapshot, independent of participants and assignments (which the function
does not even consume); empty item and participant sets yield zero-valued
aggregates rather than errors. -/
theorem billTotal_eq (b : BillTaxTip) (items : List BillItem)
    (participants : List BillParticipant) (assigns : List ItemAssignment)
    (participantId : Nat) :
    getTotalBillWithTaxTip (some b) items
        = getTotalItems items + b.tax_amount + b.tip_amount ∧
    getTotalItems [] = 0 ∧
    getParticipantTotal [] assigns participantId = 0 ∧
    getTotalAssigned items [] assigns = 0 ∧
    getTotalBillWithTaxTip (some b) [] = b.tax_amount + b.tip_amount := by
  refine ⟨rfl, rfl, rfl, rfl, ?_⟩
  show (0 : ℚ) + b.tax_amount + b.tip_amount = b.tax_amount + b.tip_amount
  ring

end SplitBill

namespace SplitBill

/-! ## C5: assignment creation errors and effect -/

/-- C5. The assignment endpoint: when no item matches (id, bill) it fails
with not-found and leaves the store unchanged; when the item exists but no
participant matches it fails with not-found unchanged; when both exist and
the (item, participant) pair is already present it fails with a conflict
unchanged; and otherwise it appends exactly that one edge, after which an
identical second call returns the conflict and changes nothing. -/
theorem assignItem_spec (s : Store) (billId itemId participantId : Nat) :
    ((∀ i ∈ s.items, ¬(i.id = itemId ∧ i.billId = billId)) →
      AssignItemToParticipant s billId itemId participantId
        = (s, .error (.notFound "Item not found in this bill"))) ∧
    ((∃ i ∈ s.items, i.id = itemId ∧ i.billId = billId) →
      (∀ p ∈ s.participants, ¬(p.id = participantId ∧ p.billId = billId)) →
      AssignItemToParticipant s billId itemId participantId
        = (s, .error (.notFound "Participant not found in this bill"))) ∧
    ((∃ i ∈ s.items, i.id = itemId ∧ i.billId = billId) →
      (∃ p ∈ s.participants, p.id = participantId ∧ p.billId = billId) →
      (∃ a ∈ s.assignments, a.itemId = itemId ∧ a.participantId = participantId) →
      AssignItemToParticipant s billId itemId participantId
        = (s, .error (.conflict "Item is already assigned to this participant"))) ∧
    ((∃ i ∈ s.items, i.id = itemId ∧ i.billId = billId) →
      (∃ p ∈ s.participants, p.id = participantId ∧ p.billId = billId) →
      (∀ a ∈ s.assignments, ¬(a.itemId = itemId ∧ a.participantId = participantId)) →
      AssignItemToParticipant s billId itemId participantId
          = ({ s with assignments := s.assignments ++ [⟨itemId, participantId⟩] },
              .ok ⟨itemId, participantId⟩) ∧
        AssignItemToParticipant
            { s with assignments := s.assignments ++ [⟨itemId, participantId⟩] }
            billId itemId participantId
          = ({ s with assignments := s.assignments ++ [⟨itemId, participantId⟩] },
              .error (.conflict "Item is already assigned to this participant"))) := by
  refine ⟨?_, ?_, ?_, ?_⟩
  · intro hni
    have h1 : s.items.find? (fun i => i.id == itemId && i.billId == billId) = none := by
      rw [List.find?_eq_none]
      intro i hi
      simp only [Bool.and_eq_true, beq_iff_eq]
      exact hni i hi
    simp [AssignItemToParticipant, h1]
  · intro hit hnp
    obtain ⟨i0, hi0⟩ : ∃ x,
        s.items.find? (fun i => i.id == itemId && i.billId == billId) = some x := by
      apply Option.isSome_iff_exists.mp
      apply List.find?_isSome.mpr
      rcases hit with ⟨i, hi, h1, h2⟩
      exact ⟨i, hi, by simp [h1, h2]⟩
    have h2 : s.participants.find?
        (fun p => p.id == participantId && p.billId == billId) = none := by
      rw [List.find?_eq_none]
      intro p hp
      simp only [Bool.and_eq_true, beq_iff_eq]
      exact hnp p hp
    simp [AssignItemToParticipant, hi0, h2]
  · intro hit hpt hdup
    obtain ⟨i0, hi0⟩ : ∃ x,
        s.items.find? (fun i => i.id == itemId && i.billId == billId) = some x := by
      apply Option.isSome_iff_exists.mp
      apply List.find?_isSome.mpr
      rcases hit with ⟨i, hi, h1, h2⟩
      exact ⟨i, hi, by simp [h1, h2]⟩
    obtain ⟨p0, hp0⟩ : ∃ x, s.participants.find?
        (fun p => p.id == participantId && p.billId == billId) = some x := by
      apply Option.isSome_iff_exists.mp
      apply List.find?_isSome.mpr
      rcases hpt with ⟨p, hp, h1, h2⟩
      exact ⟨p, hp, by simp [h1, h2]⟩
    obtain ⟨a0, ha0⟩ : ∃ x, s.assignments.find?
        (fun a => a.itemId == itemId && a.participantId == participantId) = some x := by
      apply Option.isSome_iff_exists.mp
      apply List.find?_isSome.mpr
      rcases hdup with ⟨a, ha, h1, h2⟩
      exact ⟨a, ha, by simp [h1, h2]⟩
    simp [AssignItemToParticipant, hi0, hp0, ha0]
  · intro hit hpt hnd
    obtain ⟨i0, hi0⟩ : ∃ x,
        s.items.find? (fun i => i.id == itemId && i.billId == billId) = some x := by
      apply Option.isSome_iff_exists.mp
      apply List.find?_isSome.mpr
      rcases hit with ⟨i, hi, h1, h2⟩
      exact ⟨i, hi, by simp [h1, h2]⟩
    obtain ⟨p0, hp0⟩ : ∃ x, s.participants.find?
        (fun p => p.id == participantId && p.billId == billId) = some x := by
      apply Option.isSome_iff_exists.mp
      apply List.find?_isSome.mpr
      rcases hpt with ⟨p, hp, h1, h2⟩
      exact ⟨p, hp, by simp [h1, h2]⟩
    have hna : s.assignments.find?
        (fun a => a.itemId == itemId && a.participantId == participantId) = none := by
      rw [List.find?_eq_none]
      intro a ha
      simp only [Bool.and_eq_true, beq_iff_eq]
      exact hnd a ha
    constructor
    · simp [AssignItemToParticipant, hi0, hp0, hna]
    · have happ : (s.assignments ++ [(⟨itemId, participantId⟩ : StoreAssignment)]).find?
          (fun a => a.itemId == itemId && a.participantId == participantId)
          = some ⟨itemId, participantId⟩ := by
        rw [List.find?_append, hna]
        simp
      simp [AssignItemToParticipant, hi0, hp0, happ]

/-- Witness for C5: in a one-bill store with item 10 and participant 20,
adding the assignment appends exactly that edge, and the identical second
call answers with the conflict while leaving the store as it was. -/
theorem assignItem_spec_witness :
    AssignItemToParticipant
        ⟨[⟨10, 7, "pizza", 30, 1⟩], [⟨20, 7, "Alice", "unpaid", 0⟩], []⟩ 7 10 20
        = (⟨[⟨10, 7, "pizza", 30, 1⟩], [⟨20, 7, "Alice", "unpaid", 0⟩], [⟨10, 20⟩]⟩,
            .ok ⟨10, 20⟩) ∧
      AssignItemToParticipant
        ⟨[⟨10, 7, "pizza", 30, 1⟩], [⟨20, 7, "Alice", "unpaid", 0⟩], [⟨10, 20⟩]⟩ 7 10 20
        = (⟨[⟨10, 7, "pizza", 30, 1⟩], [⟨20, 7, "Alice", "unpaid", 0⟩], [⟨10, 20⟩]⟩,
            .error (.conflict "Item is already assigned to this participant")) :=
  (assignItem_spec
    ⟨[⟨10, 7, "pizza", 30, 1⟩], [⟨20, 7, "Alice", "unpaid", 0⟩], []⟩ 7 10 20).2.2.2
    (by decide) (by decide) (by decide)

end SplitBill

namespace SplitBill

/-! ## C6: participant deletion, cascade order and (non-)atomicity -/

/-- C6 counterexample: in a store with participant 1 of bill 7 and one edge
referencing them, a fault in the participant-delete step (after the
edge-delete step succeeded) leaves an observable intermediate state: the
edges are removed but the participant remains, so the result is neither the
original store nor a store with both gone. -/
theorem deleteParticipant_atomicity_counterexample :
    ¬ ((DeleteParticipant
          ⟨[⟨5, 7, "pizza", 30, 1⟩], [⟨1, 7, "Alice", "unpaid", 0⟩], [⟨5, 1⟩]⟩
          7 1 ⟨false, true⟩).1
        = ⟨[⟨5, 7, "pizza", 30, 1⟩], [⟨1, 7, "Alice", "unpaid", 0⟩], [⟨5, 1⟩]⟩
      ∨ ((∀ a ∈ (DeleteParticipant
            ⟨[⟨5, 7, "pizza", 30, 1⟩], [⟨1, 7, "Alice", "unpaid", 0⟩], [⟨5, 1⟩]⟩
            7 1 ⟨false, true⟩).1.assignments, a.participantId ≠ 1)
          ∧ (∀ p ∈ (DeleteParticipant
              ⟨[⟨5, 7, "pizza", 30, 1⟩], [⟨1, 7, "Alice", "unpaid", 0⟩], [⟨5, 1⟩]⟩
              7 1 ⟨false, true⟩).1.participants, p.id ≠ 1))) := by
  decide

/-- C6 (amended). The handler deletes the participant's assignment edges and
then the participant, in that order and without a transaction: when neither
delete faults (and the participant belongs to the bill) both the edges and
the participant are removed and nothing else changes; a fault in the first
delete leaves the store untouched; the steps are not atomic — a fault in
the second delete leaves the edges removed with the participant still
present — but in every outcome no assignment edge references the deleted
participant id while that participant is gone (given the store started with
no such dangling edge). -/
theorem deleteParticipant_spec (s : Store) (billId participantId : Nat)
    (f : DeleteFaults)
    (hclean : (∃ a ∈ s.assignments, a.participantId = participantId) →
      ∃ p ∈ s.participants, p.id = participantId) :
    ((f.failDeleteAssignments = false ∧ f.failDeleteParticipant = false ∧
        (∃ p ∈ s.participants, p.id = participantId ∧ p.billId = billId)) →
      DeleteParticipant s billId participantId f
        = (⟨s.items,
            s.participants.filter fun p => !(p.id == participantId),
            s.assignments.filter fun a => !(a.participantId == participantId)⟩,
            .ok ())) ∧
    (f.failDeleteAssignments = true →
      (DeleteParticipant s billId participantId f).1 = s) ∧
    ((∃ a ∈ (DeleteParticipant s billId participantId f).1.assignments,
        a.participantId = participantId) →
      ∃ p ∈ (DeleteParticipant s billId participantId f).1.participants,
        p.id = participantId) := by
  refine ⟨?_, ?_, ?_⟩
  · rintro ⟨hf1, hf2, p, hp, hid, hbill⟩
    obtain ⟨p0, hp0⟩ : ∃ x, s.participants.find?
        (fun p => p.id == participantId && p.billId == billId) = some x := by
      apply Option.isSome_iff_exists.mp
      apply List.find?_isSome.mpr
      exact ⟨p, hp, by simp [hid, hbill]⟩
    simp [DeleteParticipant, hp0, hf1, hf2]
  · intro hf1
    unfold DeleteParticipant
    cases hfind : s.participants.find?
        (fun p => p.id == participantId && p.billId == billId) with
    | none => rfl
    | some p0 => simp [hf1]
  · intro hdangling
    unfold DeleteParticipant at hdangling ⊢
    cases hfind : s.participants.find?
        (fun p => p.id == participantId && p.billId == billId) with
    | none =>
      rw [hfind] at hdangling
      exact hclean hdangling
    | some p0 =>
      rw [hfind] at hdangling
      by_cases hf1 : f.failDeleteAssignments
      · rw [if_pos hf1] at hdangling
        rw [if_pos hf1]
        exact hclean hdangling
      · rw [if_neg hf1] at hdangling
        rw [if_neg hf1]
        by_cases hf2 : f.failDeleteParticipant
        · rw [if_pos hf2] at hdangling
          rcases hdangling with ⟨a, ha, haid⟩
          have := (List.mem_filter.mp ha).2
          simp [haid] at this
        · rw [if_neg hf2] at hdangling
          rcases hdangling with ⟨a, ha, haid⟩
          have := (List.mem_filter.mp ha).2
          simp [haid] at this

end SplitBill

namespace SplitBill

/-- Witness for C6 (amended): a fault-free deletion removes both the edge
and the participant in one call. -/
theorem deleteParticipant_spec_witness :
    DeleteParticipant
        ⟨[⟨5, 7, "pizza", 30, 1⟩], [⟨1, 7, "Alice", "unpaid", 0⟩], [⟨5, 1⟩]⟩
        7 1 ⟨false, false⟩
      = (⟨[⟨5, 7, "pizza", 30, 1⟩], [], []⟩, .ok ()) := by
  have h := (deleteParticipant_spec
    ⟨[⟨5, 7, "pizza", 30, 1⟩], [⟨1, 7, "Alice", "unpaid", 0⟩], [⟨5, 1⟩]⟩ 7 1
    ⟨false, false⟩ (by decide)).1 (by decide)
  rw [h]
  rfl

/-! ## C7: item updates are unvalidated partial updates -/

/-- C7 counterexample: an update carrying a negative price is not rejected;
it is applied, mutating the stored item, so the claimed validation (an
error with no mutation) fails at this input. -/
theorem updateItem_validation_counterexample :
    ¬ ((UpdateItem ⟨[⟨1, 7, "pizza", 10, 2⟩], [], []⟩ 1
          ⟨none, some (-5), none⟩).1
          = ⟨[⟨1, 7, "pizza", 10, 2⟩], [], []⟩
        ∧ ∃ msg, (UpdateItem ⟨[⟨1, 7, "pizza", 10, 2⟩], [], []⟩ 1
            ⟨none, some (-5), none⟩).2 = .error (.badRequest msg)) := by
  intro h
  exact absurd h.1 (by decide)

/-- C7 (amended). The handler rejects only a request providing no fields
(before any mutation); for any request providing at least one field it
applies exactly the provided fields to the rows with the given id — with no
validation, so an empty name, negative price or quantity below 1 is
accepted and stored — leaving omitted fields, other items, participants and
assignments unchanged. -/
theorem updateItem_spec (s : Store) (itemId : Nat) (req : UpdateItemRequest) :
    ((req.name = none ∧ req.price = none ∧ req.quantity = none) →
      UpdateItem s itemId req = (s, .error (.badRequest "No fields to update"))) ∧
    (¬(req.name = none ∧ req.price = none ∧ req.quantity = none) →
      ((UpdateItem s itemId req).1.items
          = s.items.map fun i => if i.id == itemId then applyItemUpdates req i else i) ∧
      (UpdateItem s itemId req).1.participants = s.participants ∧
      (UpdateItem s itemId req).1.assignments = s.assignments ∧
      ∀ i ∈ s.items,
        (i.id ≠ itemId → i ∈ (UpdateItem s itemId req).1.items) ∧
        (i.id = itemId →
          applyItemUpdates req i ∈ (UpdateItem s itemId req).1.items ∧
          (applyItemUpdates req i).name = req.name.getD i.name ∧
          (applyItemUpdates req i).price = req.price.getD i.price ∧
          (applyItemUpdates req i).quantity = req.quantity.getD i.quantity ∧
          (applyItemUpdates req i).billId = i.billId)) := by
  constructor
  · rintro ⟨h1, h2, h3⟩
    simp [UpdateItem, h1, h2, h3]
  · intro hne
    have hbool : (req.name.isNone && req.price.isNone && req.quantity.isNone) = false := by
      cases hn : req.name <;> cases hp : req.price <;> cases hq : req.quantity <;>
        simp_all
    have hstate : (UpdateItem s itemId req).1
        = { s with items := s.items.map fun i =>
            if i.id == itemId then applyItemUpdates req i else i } := by
      unfold UpdateItem
      rw [hbool]
      simp only [Bool.false_eq_true, if_false]
      cases hfind : (s.items.map fun i =>
          if i.id == itemId then applyItemUpdates req i else i).find?
          (fun i => i.id == itemId) with
      | none => rfl
      | some i => rfl
    refine ⟨by rw [hstate], by rw [hstate], by rw [hstate], ?_⟩
    intro i hi
    constructor
    · intro hid
      rw [hstate]
      refine List.mem_map.mpr ⟨i, hi, ?_⟩
      simp [hid]
    · intro hid
      refine ⟨?_, rfl, rfl, rfl, rfl⟩
      rw [hstate]
      refine List.mem_map.mpr ⟨i, hi, ?_⟩
      simp [hid]

/-- Witness for C7 (amended): the negative-price update from the
counterexample is accepted and stored verbatim. -/
theorem updateItem_spec_witness :
    (UpdateItem ⟨[⟨1, 7, "pizza", 10, 2⟩], [], []⟩ 1
        ⟨none, some (-5), none⟩).1.items = [⟨1, 7, "pizza", -5, 2⟩] := by
  have h := ((updateItem_spec ⟨[⟨1, 7, "pizza", 10, 2⟩], [], []⟩ 1
    ⟨none, some (-5), none⟩).2 (by simp)).1
  rw [h]
  rfl

/-! ## C8: the set of status strings the program stores -/

/-- C8 counterexample: bill creation stores the status string "active",
which is outside the claimed set. -/
theorem status_set_counterexample :
    ¬ (statusWritten StatusWrite.createBill
        ∈ (["pending", "processing", "completed", "failed"] : List String)) := by
  decide

/-- C8 (amended). Every status string the program stores belongs to the set
of "active", "processing", "completed" and "failed"; the spec's "pending"
is never stored, and both bill creation and the upload-failure revert store
"active", a value outside the spec's set. -/
theorem status_written_mem (w : StatusWrite) :
    statusWritten w ∈ (["active", "processing", "completed", "failed"] : List String) := by
  cases w <;> simp [statusWritten]

end SplitBill

namespace SplitBill

/-! ## C10: the server-side summary splits evenly by headcount -/

/-- Folding the share-map construction never changes keys that are not a
participant name. -/
theorem sharesMap_foldl_not_mem (participants : List StoreParticipant)
    (spp : ℚ) (m : String → Option ℚ) (k : String)
    (hk : k ∉ participants.map fun p => p.name) :
    participants.foldl
      (fun m p => fun x =>
        if x = p.name then some (spp + p.shareOfCommonCosts) else m x) m k = m k := by
  induction participants generalizing m with
  | nil => rfl
  | cons q t ih =>
    have hk' : k ∉ t.map fun p => p.name := by
      intro hmem
      exact hk (by simp [List.map_cons, List.mem_cons]; right; simpa using hmem)
    have hkq : k ≠ q.name := by
      intro heq
      exact hk (by simp [List.map_cons, heq])
    rw [List.foldl_cons, ih _ hk']
    simp [hkq]

/-- With duplicate-free participant names, the built share map stores each
participant's per-head share plus their share of common costs. -/
theorem sharesMap_foldl_mem (participants : List StoreParticipant)
    (spp : ℚ) (p : StoreParticipant)
    (hnd : (participants.map fun p => p.name).Nodup)
    (hp : p ∈ participants) :
    ∀ m : String → Option ℚ,
      participants.foldl
        (fun m p => fun x =>
          if x = p.name then some (spp + p.shareOfCommonCosts) else m x) m p.name
        = some (spp + p.shareOfCommonCosts) := by
  induction participants with
  | nil => cases hp
  | cons q t ih =>
    intro m
    rw [List.map_cons] at hnd
    have hqn : q.name ∉ t.map fun p => p.name := (List.nodup_cons.mp hnd).1
    have htnd : (t.map fun p => p.name).Nodup := (List.nodup_cons.mp hnd).2
    rw [List.foldl_cons]
    rcases List.mem_cons.mp hp with rfl | hpt
    · rw [sharesMap_foldl_not_mem t spp _ p.name hqn]
      simp
    · exact ih htnd hpt _

/-- C10. The server-side summary ignores assignments entirely: with at
least one participant each participant's reported share is the whole bill
total (items plus tax plus tip) divided evenly by headcount, plus their
share of common costs; with no participants the share map is empty while
the bill total is still computed; and on a concrete bill the even split
disagrees with the client-side proportional calculator (Bob is charged half
of an item assigned only to Alice, where the calculator charges Bob
nothing). -/
theorem billSummary_even_split (items : List StoreItem)
    (participants : List StoreParticipant) (tax tip : ℚ)
    (hnames : (participants.map fun p => p.name).Nodup) :
    (∀ p ∈ participants,
      (GetBillSummary items participants tax tip).participantShares p.name
        = some ((storeItemsTotal items + tax + tip) / (participants.length : ℚ)
            + p.shareOfCommonCosts)) ∧
    (participants = [] →
      (GetBillSummary items participants tax tip).participantShares = fun _ => none) ∧
    (GetBillSummary items participants tax tip).totalBill
        = storeItemsTotal items + tax + tip ∧
    (GetBillSummary [⟨1, 7, "pizza", 10, 1⟩]
        [⟨1, 7, "Alice", "unpaid", 0⟩, ⟨2, 7, "Bob", "unpaid", 0⟩]
        0 0).participantShares "Bob" = some 5 ∧
    getParticipantTotalWithTaxTip (some ⟨0, 0⟩) [⟨1, "pizza", 10, 1⟩]
        [⟨1, "Alice", 0⟩, ⟨2, "Bob", 0⟩] [⟨1, 1⟩] 2 = 0 := by
  refine ⟨?_, ?_, rfl, ?_, ?_⟩
  · intro p hp
    have hlen : 0 < participants.length :=
      List.length_pos.mpr (List.ne_nil_of_mem hp)
    show (if 0 < participants.length then
        participantSharesMap participants
          ((storeItemsTotal items + tax + tip) / (participants.length : ℚ))
      else fun _ => none) p.name = _
    rw [if_pos hlen]
    exact sharesMap_foldl_mem participants _ p hnames hp _
  · rintro rfl
    rfl
  · show (if 0 < ([⟨1, 7, "Alice", "unpaid", 0⟩, ⟨2, 7, "Bob", "unpaid", 0⟩]
        : List StoreParticipant).length then
        participantSharesMap _ ((storeItemsTotal [⟨1, 7, "pizza", 10, 1⟩] + 0 + 0)
          / (([⟨1, 7, "Alice", "unpaid", 0⟩, ⟨2, 7, "Bob", "unpaid", 0⟩]
            : List StoreParticipant).length : ℚ))
      else fun _ => none) "Bob" = some 5
    rw [if_pos (by norm_num)]
    show participantSharesMap _ _ "Bob" = some 5
    norm_num [participantSharesMap, storeItemsTotal]
  · norm_num [getParticipantTotalWithTaxTip, getParticipantTotal,
      getParticipantTaxTipShare, itemContribution, isItemAssignedToParticipant,
      sharerCount, itemLineTotal, getTotalAssigned]

/-- Witness for C10: the concrete two-participant bill from the theorem,
read back for Alice through the theorem's per-participant clause. -/
theorem billSummary_even_split_witness :
    (GetBillSummary [⟨1, 7, "pizza", 10, 1⟩]
        [⟨1, 7, "Alice", "unpaid", 0⟩, ⟨2, 7, "Bob", "unpaid", 0⟩]
        0 0).participantShares "Alice"
      = some ((storeItemsTotal [⟨1, 7, "pizza", 10, 1⟩] + 0 + 0)
          / ((([⟨1, 7, "Alice", "unpaid", 0⟩, ⟨2, 7, "Bob", "unpaid", 0⟩]
            : List StoreParticipant).length : ℚ)) + 0) :=
  (billSummary_even_split [⟨1, 7, "pizza", 10, 1⟩]
    [⟨1, 7, "Alice", "unpaid", 0⟩, ⟨2, 7, "Bob", "unpaid", 0⟩] 0 0
    (by decide)).1 ⟨1, 7, "Alice", "unpaid", 0⟩ (by decide)

end SplitBill
